import Mathlib

/-!
# QuantumSync peer-verified fingerprint consensus: a shallow embedding

This file embeds the algorithmic core of the QuantumSync backend and proves
properties of it:

* `src/backend/verification/confidence.ts` — `ConfidenceAggregator`
  (`aggregate`, `verifyReportSignatures`, `computeMean`, `computeStdDev`,
  `detectOutliers`, `assessConsensus`) and `TamperDetectionAnalyzer`
  (`analyzeTampering`);
* `src/backend/fingerprint/mains-hum.ts` — `MainsHumExtractor`
  (`extract`, `compare` and their helpers);
* `src/backend/mesh/transport.ts` — `FingerprintCoordinator.handleFingerprintRequest`.

Numeric model: the TypeScript source computes with IEEE doubles.  The
embedding uses exact arithmetic: `ℚ` for every quantity the source derives
by field operations, and `ℝ` where the source applies `Math.sqrt`,
`Math.cos` or `Math.sin`.  The statistical threshold tests that the source
performs on a square root (the z-score test of `detectOutliers` and the
coefficient-of-variation test of `assessConsensus`) are embedded as the
algebraically equivalent squared comparisons over `ℚ`, so that they stay
decidable; a bridging lemma placed next to each such definition proves the
Boolean equal to the square-root form written in the source.

Division by zero: JavaScript produces `NaN` (or `Infinity`) where Lean's
field convention produces `0`.  Each place where a division by zero is
reachable is guarded exactly as in the source, or commented where the two
conventions happen to agree on the observable outcome.

External capabilities (the `PQCryptoManager.verify` signature check, the
storage lookup callback of the mesh coordinator, `Math.random`, hashing and
timestamps) are passed as parameters, mirroring how the source receives
them by dependency injection.
-/

namespace QuantumSync

/-! ## Data model (src/backend/types/index.ts) -/

/-- Proximity level of a peer report (`'near' | 'medium' | 'far'`). -/
inductive ProximityLevel
  | near
  | medium
  | far
deriving DecidableEq, Repr

/-- Consensus level of an aggregation (`'high' | 'medium' | 'low'`). -/
inductive ConsensusLevel
  | high
  | medium
  | low
deriving DecidableEq, Repr

/-- A peer-signed fingerprint comparison report.  `signature` and
`ephemeralPubKey` are opaque byte strings (`Uint8Array` in the source),
modelled as lists of bytes; they are only ever handed to the external
crypto capability. -/
structure PeerReport where
  id : String
  mediaItemId : String
  peerEphemeralId : String
  confidenceScore : ℚ
  signature : List Nat
  ephemeralPubKey : List Nat
  timestamp : String
  peerAddress : String
  proximityLevel : ProximityLevel
deriving DecidableEq, Repr

/-- Options record of `ConfidenceAggregator.aggregate`, with the default
values from the source destructuring. -/
structure AggregateOptions where
  outlierThreshold : ℚ := 2
  minPeers : Nat := 3
  verifySignatures : Bool := true
deriving DecidableEq, Repr

/-- One entry of `ConfidenceAggregation.peerScores`. -/
structure PeerScoreEntry where
  peerId : String
  score : ℚ
  included : Bool
deriving DecidableEq, Repr

/-- Result record of `aggregate`.  `standardDeviation` is the square root
computed by the source's `computeStdDev`, hence a real number. -/
structure ConfidenceAggregation where
  aggregatedScore : ℚ
  reportCount : Nat
  outlierCount : Nat
  standardDeviation : ℝ
  consensusLevel : ConsensusLevel
  peerScores : List PeerScoreEntry

/-! ## ConfidenceAggregator (src/backend/verification/confidence.ts) -/

/-- `computeMean`: mean of an array, `0` for the empty array (the source
guards `values.length === 0` explicitly). -/
def computeMean (values : List ℚ) : ℚ :=
  if values.length = 0 then 0 else values.sum / values.length

/-- The radicand of the source's `computeStdDev`: population variance of
an array around `mean`, `0` for the empty array. -/
def computeVariance (values : List ℚ) (mean : ℚ) : ℚ :=
  if values.length = 0 then 0
  else (values.map (fun val => (val - mean) ^ 2)).sum / values.length

/-- `computeStdDev`: `0` for the empty array, otherwise
`Math.sqrt(variance)`. -/
noncomputable def computeStdDev (values : List ℚ) (mean : ℚ) : ℝ :=
  if values.length = 0 then 0 else Real.sqrt (computeVariance values mean)

/-- The per-value body of `detectOutliers`: the source computes
`zScore = stdDev > 0 ? Math.abs((val - mean) / stdDev) : 0` and tests
`zScore > threshold`.  With `stdDev = Math.sqrt(variance)` this comparison
is embedded in the equivalent squared form over `ℚ` (for a nonnegative
threshold `|d|/√v > t ↔ d² > t²·v` when `v > 0`; a negative threshold is
below every z-score).  `isOutlier_iff_zscore` proves the equivalence with
the square-root form of the source. -/
def isOutlier (val mean variance threshold : ℚ) : Bool :=
  if 0 < variance then
    decide (threshold < 0) || decide (threshold ^ 2 * variance < (val - mean) ^ 2)
  else
    decide (0 > threshold)

/-- `detectOutliers`: the Boolean outlier mask, one entry per score. -/
def detectOutliers (values : List ℚ) (mean variance threshold : ℚ) : List Bool :=
  values.map (fun val => isOutlier val mean variance threshold)

/-- The coefficient-of-variation test of `assessConsensus`: the source
computes `cv = mean > 0 ? stdDev / mean : 1` and tests `cv < bound` for the
positive literals `0.1` and `0.3`.  Embedded in squared form over `ℚ`;
`cvLt_iff` proves the equivalence with the square-root form. -/
def cvLt (variance mean bound : ℚ) : Bool :=
  if 0 < mean then decide (variance < bound ^ 2 * mean ^ 2) else decide ((1 : ℚ) < bound)

/-- `assessConsensus`: consensus level from the surviving (non-outlier)
scores and the aggregated score. -/
def assessConsensus (scores : List ℚ) (aggregatedScore : ℚ) : ConsensusLevel :=
  if scores.length = 0 then ConsensusLevel.low
  else
    let mean := computeMean scores
    let variance := computeVariance scores mean
    if cvLt variance mean (1/10) && decide ((7 : ℚ)/10 ≤ aggregatedScore) then
      ConsensusLevel.high
    else if cvLt variance mean (3/10) && decide ((5 : ℚ)/10 ≤ aggregatedScore) then
      ConsensusLevel.medium
    else ConsensusLevel.low

/-- `verifyReportSignatures`: keeps the reports whose Dilithium signature
verifies.  The crypto capability is the parameter `verify`; a report whose
verification returns `false` (or throws, which the source catches) is
dropped, preserving order. -/
def verifyReportSignatures (verify : PeerReport → Bool) (reports : List PeerReport) :
    List PeerReport :=
  reports.filter verify

/-- `ConfidenceAggregator.aggregate`.  Notes on the embedding:

* the thrown `InsufficientReportsError` is the `Except.error` branch;
* the source builds `outlierMask` by index and then filters
  `scores`/`reports` and builds `peerScores` by looking the mask up at the
  same index; since `outlierMask[i]` is a function of `scores[i]` alone,
  those index lookups are embedded as pointwise applications of
  `isOutlier`, which select exactly the same elements. -/
noncomputable def aggregate (verify : PeerReport → Bool) (reports : List PeerReport)
    (options : AggregateOptions) : Except String ConfidenceAggregation :=
  if reports.length < options.minPeers then
    Except.error "Insufficient peer reports"
  else
    let surviving :=
      if options.verifySignatures then verifyReportSignatures verify reports else reports
    let scores := surviving.map PeerReport.confidenceScore
    let mean := computeMean scores
    let variance := computeVariance scores mean
    let outlierMask := detectOutliers scores mean variance options.outlierThreshold
    let filteredScores :=
      scores.filter (fun s => !isOutlier s mean variance options.outlierThreshold)
    let filteredReports :=
      surviving.filter (fun r => !isOutlier r.confidenceScore mean variance options.outlierThreshold)
    let aggregatedScore := computeMean filteredScores
    Except.ok
      { aggregatedScore := aggregatedScore
        reportCount := filteredReports.length
        outlierCount := outlierMask.count true
        standardDeviation := computeStdDev scores mean
        consensusLevel := assessConsensus filteredScores aggregatedScore
        peerScores := surviving.map (fun r =>
          ⟨r.peerEphemeralId, r.confidenceScore,
            !isOutlier r.confidenceScore mean variance options.outlierThreshold⟩) }

/-! ## TamperDetectionAnalyzer (src/backend/verification/confidence.ts) -/

/-- Risk level of a tamper analysis. -/
inductive RiskLevel
  | low
  | medium
  | high
deriving DecidableEq, Repr

/-- Result of `analyzeTampering`. -/
structure TamperAnalysis where
  tamperingLikely : Bool
  indicators : List String
  riskLevel : RiskLevel

/-- `TamperDetectionAnalyzer.analyzeTampering`.  Notes:

* `outlierRatio = outlierCount / (reportCount + outlierCount)`; when both
  counts are zero JavaScript yields `NaN` and `NaN > 0.3` is `false`, and
  the Lean convention `0 / 0 = 0` gives the same `false`;
* the source interpolates the percentage into the third indicator string;
  the indicator strings are embedded as fixed labels (no claim concerns
  their text, only their number). -/
noncomputable def analyzeTampering (aggregation : ConfidenceAggregation) : TamperAnalysis :=
  let i1 : List String :=
    if aggregation.aggregatedScore < 3/10 then ["Very low confidence score"] else []
  let i2 : List String :=
    if aggregation.consensusLevel = ConsensusLevel.low then ["Low peer consensus"] else []
  let outlierRatio : ℚ :=
    (aggregation.outlierCount : ℚ) / ((aggregation.reportCount : ℚ) + (aggregation.outlierCount : ℚ))
  let i3 : List String := if 3/10 < outlierRatio then ["High outlier ratio"] else []
  let i4 : List String :=
    if (3/10 : ℝ) < aggregation.standardDeviation then ["High variance in peer scores"] else []
  let indicators := i1 ++ i2 ++ i3 ++ i4
  { tamperingLikely := decide (2 ≤ indicators.length)
    indicators := indicators
    riskLevel :=
      if indicators.length = 0 then RiskLevel.low
      else if indicators.length ≤ 2 then RiskLevel.medium
      else RiskLevel.high }

/-! ## MainsHumExtractor: data model (src/backend/fingerprint/mains-hum.ts) -/

/-- `FingerprintConfig` with the values of `DEFAULT_FINGERPRINT_CONFIG`. -/
structure FingerprintConfig where
  sampleRate : ℚ := 44100
  fftWindowSize : ℕ := 4096
  hopSize : ℕ := 2048
  lowCutoff : ℚ := 45
  highCutoff : ℚ := 65
  targetFrequency : ℚ := 60
  frequencyTolerance : ℚ := 2
  minDuration : ℚ := 5
deriving DecidableEq, Repr

/-- Extracted fingerprint.  The vector entries and the extraction quality
are computed through `Math.sqrt`/`Math.cos`/`Math.sin`, hence real. -/
structure Fingerprint where
  vector : List ℝ
  hash : String
  mainsFrequency : ℚ
  extractionQuality : ℝ
  duration : ℚ
  sampleRate : ℚ
  extractedAt : String

/-- Comparison confidence (`'high' | 'medium' | 'low'`). -/
inductive ConfidenceLevel
  | high
  | medium
  | low
deriving DecidableEq, Repr

/-- Proximity estimate of a comparison. -/
inductive ProximityEstimate
  | same_location
  | nearby
  | distant
  | unknown
deriving DecidableEq, Repr

/-- Result of `MainsHumExtractor.compare`. -/
structure FingerprintComparison where
  similarity : ℝ
  correlation : ℝ
  confidence : ConfidenceLevel
  timeOffset : ℚ
  proximityEstimate : ProximityEstimate

/-! ## MainsHumExtractor: comparison (src/backend/fingerprint/mains-hum.ts) -/

/-- The correlation value the `crossCorrelate` loop computes for one
offset: the mean of `vector1[i] * vector2[i + offset]` over the indices
`i < min(len1, len2)` for which `i + offset` is a valid index of
`vector2`, and `0` when no index is valid.  `List.getD` is only applied
in bounds, so the default value `0` is never read. -/
noncomputable def correlationAt (vector1 vector2 : List ℝ) (offset : ℤ) : ℝ :=
  let minLength := min vector1.length vector2.length
  let valid := (List.range minLength).filter
    (fun (i : ℕ) => 0 ≤ (i : ℤ) + offset ∧ (i : ℤ) + offset < (vector2.length : ℤ))
  let count := valid.length
  let sum := (valid.map
    (fun i => vector1.getD i 0 * vector2.getD ((i : ℤ) + offset).toNat 0)).sum
  if 0 < count then sum / count else 0

/-- One iteration of the `crossCorrelate` search loop.  The source
initialises `maxCorrelation = -Infinity`, so the first iteration always
wins the strict comparison; the accumulator value `none` plays that role
here.  The update condition `correlation > maxCorrelation` is strict:
ties keep the earlier (more negative) offset. -/
noncomputable def ccStep (vector1 vector2 : List ℝ) (acc : Option (ℝ × ℤ)) (offset : ℤ) :
    Option (ℝ × ℤ) :=
  let correlation := correlationAt vector1 vector2 offset
  match acc with
  | none => some (correlation, offset)
  | some (best, bestOffset) =>
      if best < correlation then some (correlation, offset) else some (best, bestOffset)

/-- The offsets `-maxOffset, ..., maxOffset` in loop order. -/
def offsetRange (maxOffset : ℕ) : List ℤ :=
  (List.range (2 * maxOffset + 1)).map (fun (k : ℕ) => (k : ℤ) - (maxOffset : ℤ))

/-- `crossCorrelate`: best (correlation, offset) pair over the offset
range `±⌊min(len1, len2)/2⌋`.  The range is never empty, so the fold is
never `none` and the `getD` default is never read. -/
noncomputable def crossCorrelate (vector1 vector2 : List ℝ) : ℝ × ℤ :=
  let maxOffset := min vector1.length vector2.length / 2
  (((offsetRange maxOffset).foldl (ccStep vector1 vector2) none).getD (0, 0))

/-- `alignVectors`: shift `vector` by `offset`, padding with zeros. -/
noncomputable def alignVectors (vector : List ℝ) (offset : ℤ) : List ℝ :=
  (List.range vector.length).map (fun (i : ℕ) =>
    if 0 ≤ (i : ℤ) + offset ∧ (i : ℤ) + offset < (vector.length : ℤ)
    then vector.getD ((i : ℤ) + offset).toNat 0 else 0)

/-- `cosineSimilarity` over the common prefix, `0` when a norm vanishes. -/
noncomputable def cosineSimilarity (vector1 vector2 : List ℝ) : ℝ :=
  let minLength := min vector1.length vector2.length
  let dotProduct := ((List.range minLength).map
    (fun (i : ℕ) => vector1.getD i 0 * vector2.getD i 0)).sum
  let norm1 := ((List.range minLength).map (fun (i : ℕ) => vector1.getD i 0 ^ 2)).sum
  let norm2 := ((List.range minLength).map (fun (i : ℕ) => vector2.getD i 0 ^ 2)).sum
  let magnitude := Real.sqrt (norm1 * norm2)
  if 0 < magnitude then dotProduct / magnitude else 0

/-- `determineConfidence`: thresholds `similarity * avgQuality` at 0.7/0.4. -/
noncomputable def determineConfidence (similarity quality1 quality2 : ℝ) : ConfidenceLevel :=
  let score := similarity * ((quality1 + quality2) / 2)
  if (7 : ℝ)/10 ≤ score then ConfidenceLevel.high
  else if (4 : ℝ)/10 ≤ score then ConfidenceLevel.medium
  else ConfidenceLevel.low

/-- `estimateProximity`: joint thresholds on similarity and the absolute
frame offset. -/
noncomputable def estimateProximity (similarity : ℝ) (timeOffsetFrames : ℕ) :
    ProximityEstimate :=
  if (85 : ℝ)/100 ≤ similarity ∧ timeOffsetFrames < 10 then ProximityEstimate.same_location
  else if (6 : ℝ)/10 ≤ similarity ∧ timeOffsetFrames < 50 then ProximityEstimate.nearby
  else if (3 : ℝ)/10 ≤ similarity then ProximityEstimate.distant
  else ProximityEstimate.unknown

/-- `MainsHumExtractor.compare`.  The mains-frequency mismatch
short-circuit returns the zero comparison; otherwise cross-correlation,
realignment and cosine similarity are combined. -/
noncomputable def compare (config : FingerprintConfig)
    (fingerprint1 fingerprint2 : Fingerprint) : FingerprintComparison :=
  if 5 < |fingerprint1.mainsFrequency - fingerprint2.mainsFrequency| then
    { similarity := 0
      correlation := 0
      confidence := ConfidenceLevel.low
      timeOffset := 0
      proximityEstimate := ProximityEstimate.distant }
  else
    let cc := crossCorrelate fingerprint1.vector fingerprint2.vector
    let maxCorrelation := cc.1
    let offset := cc.2
    let alignedVector2 := alignVectors fingerprint2.vector offset
    let cosSim := cosineSimilarity fingerprint1.vector alignedVector2
    let similarity := (maxCorrelation + cosSim) / 2
    { similarity := similarity
      correlation := maxCorrelation
      confidence :=
        determineConfidence similarity fingerprint1.extractionQuality
          fingerprint2.extractionQuality
      timeOffset := (offset : ℚ) * ((config.hopSize : ℚ) / config.sampleRate)
      proximityEstimate := estimateProximity similarity offset.natAbs }

/-! ## MainsHumExtractor: extraction (src/backend/fingerprint/mains-hum.ts)

Audio signals are embedded as functions `ℕ → ℝ` together with an explicit
length; every loop of the source is index-bounded, so out-of-range reads
never occur on the executions the claims are about. -/

/-- The moving-average window radius of `bandpassFilter`:
`Math.floor(sampleRate / ((lowCutoff + highCutoff) / 2))`. -/
def bandWindowSize (sampleRate lowCutoff highCutoff : ℚ) : ℤ :=
  ⌊sampleRate / ((lowCutoff + highCutoff) / 2)⌋

/-- `bandpassFilter`: subtracts from each sample the mean of the samples
in the clamped window `[i - ws, i + ws)`.  (The `normalizedLow/High`
locals of the source are computed but never used, and are omitted.)  For
every sample index `i < N` the window is nonempty, so the division by
`count` is by a positive number; a degenerate (nonpositive) `sampleRate`
makes the window empty, where JavaScript would produce `NaN` and this
embedding produces `data i - 0`; no claim depends on the filtered values
of such inputs. -/
noncomputable def bandpassFilter (data : ℕ → ℝ) (N : ℕ)
    (sampleRate lowCutoff highCutoff : ℚ) : ℕ → ℝ :=
  fun i =>
    let ws := bandWindowSize sampleRate lowCutoff highCutoff
    let lo := (max 0 ((i : ℤ) - ws)).toNat
    let hi := min N (((i : ℤ) + ws).toNat)
    let window := Finset.Ico lo hi
    data i - (∑ j ∈ window, data j) / (window.card : ℝ)

/-- Real part of bin `k` of the source's simplified `n`-point DFT (`fft`). -/
noncomputable def fftReal (input : ℕ → ℝ) (n k : ℕ) : ℝ :=
  ∑ t ∈ Finset.range n, input t * Real.cos (2 * Real.pi * k * t / n)

/-- Imaginary part of bin `k` (the source accumulates with `-=`). -/
noncomputable def fftImag (input : ℕ → ℝ) (n k : ℕ) : ℝ :=
  -(∑ t ∈ Finset.range n, input t * Real.sin (2 * Real.pi * k * t / n))

/-- Magnitude at bin `k`: the source's
`Math.sqrt(fftResult[2k]^2 + fftResult[2k+1]^2)`; the interleaved
(real, imaginary) array is embedded as the two component functions. -/
noncomputable def fftMagnitude (input : ℕ → ℝ) (n k : ℕ) : ℝ :=
  Real.sqrt (fftReal input n k ^ 2 + fftImag input n k ^ 2)

/-- The argmax loop of `detectMainsFrequency`: start from
`(maxMagnitude, maxBin) = (0, startBin)` and move on strictly larger
magnitude only. -/
noncomputable def detectArgmax (magnitude : ℕ → ℝ) (startBin endBin : ℕ) : ℕ :=
  ((List.range' startBin (endBin - startBin)).foldl
    (fun acc i => if acc.1 < magnitude i then (magnitude i, i) else acc)
    ((0 : ℝ), startBin)).2

/-- `detectMainsFrequency`: peak of the 45–65 Hz band of the DFT of the
first `min N 8192` samples, snapped to 50 or 60 Hz.  The frequency
resolution uses the nominal `fftSize = 8192` even when fewer samples are
available (as the source does). -/
noncomputable def detectMainsFrequency (data : ℕ → ℝ) (N : ℕ) (sampleRate : ℚ) : ℚ :=
  let fftSize : ℕ := 8192
  let n := min fftSize N
  let freqResolution := sampleRate / (fftSize : ℚ)
  let startBin := (⌊(45 : ℚ) / freqResolution⌋).toNat
  let endBin := (⌈(65 : ℚ) / freqResolution⌉).toNat
  let maxBin := detectArgmax (fun k => fftMagnitude data n k) startBin endBin
  let detectedFreq := (maxBin : ℚ) * freqResolution
  if |detectedFreq - 50| < |detectedFreq - 60| then 50 else 60

/-- `Math.round`: round half up (`⌊x + 1/2⌋`). -/
def jround (q : ℚ) : ℤ := ⌊q + 1/2⌋

/-- The Hamming window coefficient
`0.54 - 0.46 * cos(2πi / (frameLength - 1))`. -/
noncomputable def hammingWindow (frameLength i : ℕ) : ℝ :=
  54/100 - 46/100 * Real.cos ((2 * Real.pi * i) / ((frameLength - 1 : ℕ) : ℝ))

/-- `normalize`: min-max normalisation of the vector to `[0,1]`, except
that a vector of `range = 0` (all entries equal, in particular any
single-entry vector) is returned unchanged.  For the empty vector the
source computes `range = -Infinity ≠ 0` and the normalisation loop runs
zero times, returning an empty vector. -/
noncomputable def normalize (vector : List ℝ) : List ℝ :=
  match vector with
  | [] => []
  | v :: vs =>
      let minV := vs.foldl min v
      let maxV := vs.foldl max v
      let range := maxV - minV
      if range = 0 then v :: vs
      else (v :: vs).map (fun x => (x - minV) / range)

/-- `extractFingerprintVector`: short-time transform with
`numFrames = ⌊(N - fftWindowSize) / hopSize⌋` Hamming-windowed frames,
reading the magnitude of the bin nearest `targetFreq`, then min-max
normalised.  A negative `numFrames` (accepted audio shorter than one
window, where the source would throw a `RangeError` building the output
array) is embedded as the empty vector; no claim depends on that corner.
A degenerate nonpositive target bin is clamped to `0` by `Int.toNat`. -/
noncomputable def extractFingerprintVector (data : ℕ → ℝ) (N : ℕ)
    (config : FingerprintConfig) (sampleRate targetFreq : ℚ) : List ℝ :=
  let numFrames : ℤ := ⌊((N : ℚ) - (config.fftWindowSize : ℚ)) / (config.hopSize : ℚ)⌋
  let freqResolution := sampleRate / (config.fftWindowSize : ℚ)
  let targetBin : ℕ := (jround (targetFreq / freqResolution)).toNat
  normalize ((List.range numFrames.toNat).map (fun i =>
    fftMagnitude
      (fun t => data (i * config.hopSize + t) * hammingWindow config.fftWindowSize t)
      config.fftWindowSize targetBin))

/-- `assessExtractionQuality`: a coarse SNR proxy mapped into `[0,1]`.
The literal `1e-10` is embedded as the exact decimal.  (For the empty
vector JavaScript produces `NaN` where this embedding produces `0`; no
claim concerns the quality of an empty vector.) -/
noncomputable def assessExtractionQuality (vector : List ℝ) : ℝ :=
  let mean := vector.sum / (vector.length : ℝ)
  let variance := (vector.map (fun val => (val - mean) ^ 2)).sum / (vector.length : ℝ)
  let stdDev := Real.sqrt variance
  let snrEstimate := stdDev / (mean + 1 / 10 ^ 10)
  min 1 (snrEstimate / (1/2))

/-- `MainsHumExtractor.extract`.  The thrown `AudioTooShortError` is the
`none` branch.  The source's `computeHash` digests the raw bytes of the
`Float32Array` (a memory-layout operation) and `extractedAt` is a wall
clock read; both are passed in as parameters (`hashFn`, `extractedAt`).
The `Int16Array` conversion branch of `toFloat32` is not taken: the
embedding receives the samples already as reals. -/
noncomputable def extract (config : FingerprintConfig) (hashFn : List ℝ → String)
    (extractedAt : String) (audioData : ℕ → ℝ) (N : ℕ) (sampleRate : ℚ) :
    Option Fingerprint :=
  if (N : ℚ) < sampleRate * config.minDuration then none
  else
    let filtered := bandpassFilter audioData N sampleRate config.lowCutoff config.highCutoff
    let mainsFrequency := detectMainsFrequency filtered N sampleRate
    let fingerprintVector := extractFingerprintVector filtered N config sampleRate mainsFrequency
    some
      { vector := fingerprintVector
        hash := hashFn fingerprintVector
        mainsFrequency := mainsFrequency
        extractionQuality := assessExtractionQuality fingerprintVector
        duration := (N : ℚ) / sampleRate
        sampleRate := sampleRate
        extractedAt := extractedAt }

/-! ## FingerprintCoordinator (src/backend/mesh/transport.ts) -/

/-- Payload of a fingerprint comparison request. -/
structure FingerprintRequest where
  mediaItemId : String
  fingerprintHash : String
  ephemeralPublicKey : List Nat
deriving DecidableEq, Repr

/-- Payload of a fingerprint comparison response. -/
structure FingerprintResponse where
  mediaItemId : String
  confidenceScore : ℚ
  signedReport : PeerReport
deriving DecidableEq, Repr

/-- `FingerprintCoordinator.handleFingerprintRequest` (responder side).
The storage lookup `extractorCallback` and the `Math.random()` draws (the
mock similarity in `[0,1)` and the random id suffixes) are parameters.
The source throws when the local lookup yields no fingerprint; that throw
is the `Except.error` branch. -/
def handleFingerprintRequest (extractorCallback : String → Option Fingerprint)
    (randScore : ℚ) (randReportId randPeerId timestamp : String)
    (request : FingerprintRequest) : Except String FingerprintResponse :=
  match extractorCallback request.fingerprintHash with
  | none => Except.error "No matching fingerprint found locally"
  | some _ =>
      let confidenceScore := randScore * (1/2) + 1/2
      Except.ok
        { mediaItemId := request.mediaItemId
          confidenceScore := confidenceScore
          signedReport :=
            { id := randReportId
              mediaItemId := request.mediaItemId
              peerEphemeralId := randPeerId
              confidenceScore := confidenceScore
              signature := []
              ephemeralPubKey := []
              timestamp := timestamp
              peerAddress := "unknown"
              proximityLevel := ProximityLevel.near } }

/-! ## Concrete inputs used by the claim instances -/

/-- A peer report with the given ephemeral id and confidence score (the
remaining fields are irrelevant to aggregation). -/
def mkReport (peerId : String) (score : ℚ) : PeerReport :=
  { id := peerId
    mediaItemId := "media-1"
    peerEphemeralId := peerId
    confidenceScore := score
    signature := [1]
    ephemeralPubKey := [2]
    timestamp := "2024-01-01T00:00:00Z"
    peerAddress := "addr"
    proximityLevel := ProximityLevel.near }

/-- The five-peer scenario of the specification:
scores `{0.95, 0.94, 0.96, 0.05, 0.97}`. -/
def scenarioReports : List PeerReport :=
  [mkReport "p1" (95/100), mkReport "p2" (94/100), mkReport "p3" (96/100),
   mkReport "p4" (5/100), mkReport "p5" (97/100)]

/-- Indicator count of the tamper-analysis contract, written exactly as
the specification enumerates the four indicators.  (Spec-side definition,
to be compared with the embedded `analyzeTampering`.) -/
noncomputable def tamperIndicatorCount (a : ConfidenceAggregation) : ℕ :=
  (if a.aggregatedScore < 3/10 then 1 else 0)
    + (if a.consensusLevel = ConsensusLevel.low then 1 else 0)
    + (if 3/10 < (a.outlierCount : ℚ) / ((a.reportCount : ℚ) + (a.outlierCount : ℚ)) then 1 else 0)
    + (if (3/10 : ℝ) < a.standardDeviation then 1 else 0)

/-- The audio input of the normalisation failing input: a spike of
amplitude 100 at sample 0, everything else silent. -/
noncomputable def spikeAudio : ℕ → ℝ := fun i => if i = 0 then 100 else 0

/-- A well-formed fingerprint with vector `[1, 1]` (non-empty vector,
extraction quality within `[0, 1]`). -/
noncomputable def fpOnes : Fingerprint :=
  { vector := [1, 1]
    hash := "h"
    mainsFrequency := 60
    extractionQuality := 1
    duration := 5
    sampleRate := 44100
    extractedAt := "now" }

/-- A well-formed fingerprint with vector `[1, 0.95]`, whose zero-offset
self-correlation `0.95125` strictly dominates the other offsets. -/
noncomputable def fpPeak : Fingerprint :=
  { vector := [1, 19/20]
    hash := "h"
    mainsFrequency := 60
    extractionQuality := 1
    duration := 5
    sampleRate := 44100
    extractedAt := "now" }

/-- The scores `aggregate` works on after the signature-verification
step: the confidence scores of the reports that survive filtering (all
reports when verification is disabled).  This is the list the source
calls `scores`. -/
def survivingScores (verify : PeerReport → Bool) (reports : List PeerReport)
    (options : AggregateOptions) : List ℚ :=
  (if options.verifySignatures then verifyReportSignatures verify reports else reports).map
    PeerReport.confidenceScore

/-! ## Bridging lemmas: squared tests versus the square-root forms -/

/-- The embedded `isOutlier` agrees with the z-score comparison written in
the source, `(stdDev > 0 ? |val - mean| / stdDev : 0) > threshold` with
`stdDev = Math.sqrt variance`. -/
theorem isOutlier_iff_zscore (val mean variance threshold : ℚ) (hv : 0 ≤ variance) :
    isOutlier val mean variance threshold = true ↔
      (threshold : ℝ) <
        (if 0 < Real.sqrt variance then |(val : ℝ) - (mean : ℝ)| / Real.sqrt variance else 0) := by
  rcases lt_or_eq_of_le hv with hv0 | hv0
  · have hs : 0 < Real.sqrt variance := Real.sqrt_pos.mpr (by exact_mod_cast hv0)
    rw [if_pos hs, isOutlier, if_pos hv0]
    rcases lt_or_le threshold 0 with ht | ht
    · simp only [decide_eq_true_eq, Bool.or_eq_true]
      constructor
      · intro _
        calc (threshold : ℝ) < 0 := by exact_mod_cast ht
          _ ≤ |(val : ℝ) - (mean : ℝ)| / Real.sqrt variance :=
            div_nonneg (abs_nonneg _) hs.le
      · intro _; exact Or.inl ht
    · simp only [decide_eq_true_eq, Bool.or_eq_true]
      have hns : ¬ threshold < 0 := not_lt.mpr ht
      constructor
      · rintro (h | h)
        · exact absurd h hns
        · rw [lt_div_iff hs]
          have h' : (threshold : ℝ) ^ 2 * (variance : ℝ) < ((val : ℝ) - (mean : ℝ)) ^ 2 := by
            exact_mod_cast h
          have hsq : ((threshold : ℝ) * Real.sqrt variance) ^ 2 < |(val : ℝ) - (mean : ℝ)| ^ 2 := by
            rw [mul_pow, Real.sq_sqrt (by exact_mod_cast hv)]
            rwa [sq_abs]
          have h0 : (0 : ℝ) ≤ (threshold : ℝ) * Real.sqrt variance :=
            mul_nonneg (by exact_mod_cast ht) hs.le
          exact lt_of_pow_lt_pow_left 2 (abs_nonneg _) hsq
      · intro h
        refine Or.inr ?_
        rw [lt_div_iff hs] at h
        have h0 : (0 : ℝ) ≤ (threshold : ℝ) * Real.sqrt variance :=
          mul_nonneg (by exact_mod_cast ht) hs.le
        have hsq : ((threshold : ℝ) * Real.sqrt variance) ^ 2 < |(val : ℝ) - (mean : ℝ)| ^ 2 :=
          pow_lt_pow_left h h0 two_ne_zero
        rw [mul_pow, Real.sq_sqrt (by exact_mod_cast hv), sq_abs] at hsq
        exact_mod_cast hsq
  · subst hv0
    rw [isOutlier, if_neg (lt_irrefl 0)]
    simp only [Rat.cast_zero, Real.sqrt_zero, lt_irrefl, if_false, gt_iff_lt,
      decide_eq_true_eq]
    exact ⟨fun h => by exact_mod_cast h, fun h => by exact_mod_cast h⟩

/-- The embedded `cvLt` agrees with the coefficient-of-variation
comparison written in the source, `(mean > 0 ? stdDev/mean : 1) < bound`
with `stdDev = Math.sqrt variance`, for the nonnegative bounds it is
applied to. -/
theorem cvLt_iff (variance mean bound : ℚ) (hv : 0 ≤ variance) (hb : 0 ≤ bound) :
    cvLt variance mean bound = true ↔
      (if 0 < mean then Real.sqrt variance / (mean : ℝ) else 1) < (bound : ℝ) := by
  rw [cvLt]
  rcases lt_or_le 0 mean with hm | hm
  · have hmR : (0 : ℝ) < (mean : ℝ) := by exact_mod_cast hm
    rw [if_pos hm, if_pos hm]
    simp only [decide_eq_true_eq]
    rw [div_lt_iff hmR]
    constructor
    · intro h
      have h' : (variance : ℝ) < (bound : ℝ) ^ 2 * (mean : ℝ) ^ 2 := by exact_mod_cast h
      have hbm : (0 : ℝ) ≤ (bound : ℝ) * (mean : ℝ) :=
        mul_nonneg (by exact_mod_cast hb) hmR.le
      have : Real.sqrt variance < Real.sqrt (((bound : ℝ) * (mean : ℝ)) ^ 2) := by
        apply Real.sqrt_lt_sqrt (by exact_mod_cast hv)
        rw [mul_pow]; exact h'
      rwa [Real.sqrt_sq hbm] at this
    · intro h
      have hsq : (variance : ℝ) < ((bound : ℝ) * (mean : ℝ)) ^ 2 := by
        have h0 : (0 : ℝ) ≤ Real.sqrt variance := Real.sqrt_nonneg _
        calc (variance : ℝ) = Real.sqrt variance ^ 2 := by
              rw [Real.sq_sqrt (by exact_mod_cast hv)]
          _ < ((bound : ℝ) * (mean : ℝ)) ^ 2 := by
              apply pow_lt_pow_left h h0 two_ne_zero
      rw [mul_pow] at hsq
      exact_mod_cast hsq
  · rw [if_neg (not_lt.mpr hm), if_neg (not_lt.mpr hm)]
    simp only [decide_eq_true_eq]
    constructor
    · intro h; exact_mod_cast h
    · intro h; exact_mod_cast h

/-! ## General lemmas about the aggregator -/

/-- The variance radicand is a mean of squares, hence nonnegative. -/
theorem computeVariance_nonneg (values : List ℚ) (mean : ℚ) :
    0 ≤ computeVariance values mean := by
  unfold computeVariance
  split
  · exact le_refl 0
  · apply div_nonneg
    · apply List.sum_nonneg
      intro x hx
      obtain ⟨v, _, rfl⟩ := List.mem_map.mp hx
      positivity
    · exact_mod_cast Nat.zero_le _

/-- A list of values bounded by 1 sums to at most its length. -/
theorem sum_le_coe_length (values : List ℚ) (h1 : ∀ x ∈ values, x ≤ 1) :
    values.sum ≤ (values.length : ℚ) := by
  induction values with
  | nil => simp
  | cons a t ih =>
      simp only [List.sum_cons, List.length_cons]
      push_cast
      have ha := h1 a (List.mem_cons_self a t)
      have ht := ih (fun x hx => h1 x (List.mem_cons_of_mem a hx))
      linarith

/-- `computeMean` of values in `[0, 1]` lies in `[0, 1]` (also for the
empty list, where it is `0`). -/
theorem computeMean_mem_unit (values : List ℚ)
    (h : ∀ x ∈ values, 0 ≤ x ∧ x ≤ 1) :
    0 ≤ computeMean values ∧ computeMean values ≤ 1 := by
  unfold computeMean
  split
  · norm_num
  · rename_i hne
    have hpos : (0 : ℚ) < (values.length : ℚ) := by
      exact_mod_cast Nat.pos_of_ne_zero hne
    constructor
    · exact div_nonneg (List.sum_nonneg (fun x hx => (h x hx).1)) hpos.le
    · rw [div_le_one hpos]
      exact sum_le_coe_length values (fun x hx => (h x hx).2)

/-- `isOutlier` is `false` when the squared deviation stays within the
threshold (positive variance, nonnegative threshold). -/
theorem isOutlier_eq_false_of (val mean variance threshold : ℚ) (hv : 0 < variance)
    (ht : 0 ≤ threshold) (h : (val - mean) ^ 2 ≤ threshold ^ 2 * variance) :
    isOutlier val mean variance threshold = false := by
  unfold isOutlier
  rw [if_pos hv]
  simp only [Bool.or_eq_false_iff, decide_eq_false_iff_not, not_lt]
  exact ⟨ht, h⟩

/-- Closed-form value of `aggregate` on the five-peer specification
scenario `{0.95, 0.94, 0.96, 0.05, 0.97}` with threshold 2 and signature
verification disabled: mean `0.774`, variance `0.131144`, and the z-score
of the `0.05` report is `0.724 / √0.131144 ≈ 1.9992`, strictly below the
threshold, so nothing is flagged. -/
theorem scenario_aggregate_eq :
    aggregate (fun _ => true) scenarioReports ⟨2, 3, false⟩ =
      Except.ok
        { aggregatedScore := 387/500
          reportCount := 5
          outlierCount := 0
          standardDeviation := Real.sqrt ((16393/125000 : ℚ) : ℝ)
          consensusLevel := ConsensusLevel.low
          peerScores :=
            [⟨"p1", 95/100, true⟩, ⟨"p2", 94/100, true⟩, ⟨"p3", 96/100, true⟩,
             ⟨"p4", 5/100, true⟩, ⟨"p5", 97/100, true⟩] } := by
  have hmean : computeMean [95/100, 94/100, 96/100, 5/100, 97/100] = 387/500 := by
    norm_num [computeMean]
  have hvar :
      computeVariance [95/100, 94/100, 96/100, 5/100, 97/100] (387/500) = 16393/125000 := by
    norm_num [computeVariance]
  have ho1 : isOutlier (95/100) (387/500) (16393/125000) 2 = false :=
    isOutlier_eq_false_of _ _ _ _ (by norm_num) (by norm_num) (by norm_num)
  have ho2 : isOutlier (94/100) (387/500) (16393/125000) 2 = false :=
    isOutlier_eq_false_of _ _ _ _ (by norm_num) (by norm_num) (by norm_num)
  have ho3 : isOutlier (96/100) (387/500) (16393/125000) 2 = false :=
    isOutlier_eq_false_of _ _ _ _ (by norm_num) (by norm_num) (by norm_num)
  have ho4 : isOutlier (5/100) (387/500) (16393/125000) 2 = false :=
    isOutlier_eq_false_of _ _ _ _ (by norm_num) (by norm_num) (by norm_num)
  have ho5 : isOutlier (97/100) (387/500) (16393/125000) 2 = false :=
    isOutlier_eq_false_of _ _ _ _ (by norm_num) (by norm_num) (by norm_num)
  have hcv1 : cvLt (16393/125000) (387/500) (1/10) = false := by
    unfold cvLt
    rw [if_pos (by norm_num)]
    norm_num
  have hcv3 : cvLt (16393/125000) (387/500) (3/10) = false := by
    unfold cvLt
    rw [if_pos (by norm_num)]
    norm_num
  have hcons :
      assessConsensus [95/100, 94/100, 96/100, 5/100, 97/100] (387/500) =
        ConsensusLevel.low := by
    unfold assessConsensus
    rw [if_neg (by norm_num)]
    dsimp only
    rw [hmean, hvar, hcv1, hcv3]
    simp
  unfold aggregate
  rw [if_neg (by norm_num [scenarioReports])]
  simp only [scenarioReports, mkReport, verifyReportSignatures, Bool.false_eq_true,
    if_false, List.map_cons, List.map_nil, detectOutliers, List.filter_cons,
    List.filter_nil, hmean, hvar, ho1, ho2, ho3, ho4, ho5, Bool.not_false, if_true,
    computeStdDev, Except.ok.injEq, ConfidenceAggregation.mk.injEq, hcons]
  norm_num [List.count, List.countP, List.countP.go]

/-! ## Claims -/

/-- **C10.** With signature verification enabled, at least `minPeers`
reports, and every signature failing verification, `aggregate` does not
raise: it returns score 0, report count 0, outlier count 0, standard
deviation 0, consensus `low`, and no peer scores. -/
theorem aggregate_all_signatures_invalid (verify : PeerReport → Bool)
    (reports : List PeerReport) (options : AggregateOptions)
    (hvs : options.verifySignatures = true)
    (hmin : options.minPeers ≤ reports.length)
    (hfail : ∀ r ∈ reports, verify r = false) :
    aggregate verify reports options =
      Except.ok ⟨0, 0, 0, 0, ConsensusLevel.low, []⟩ := by
  have hfilter : reports.filter verify = [] := by
    rw [List.filter_eq_nil_iff]
    intro a ha
    simp [hfail a ha]
  unfold aggregate
  rw [if_neg (not_lt.mpr hmin)]
  simp [hvs, verifyReportSignatures, hfilter, computeMean, computeVariance,
    computeStdDev, detectOutliers, assessConsensus]

/-- Witness for C10: three concrete reports, a verifier rejecting all. -/
theorem aggregate_all_signatures_invalid_witness :
    aggregate (fun _ => false)
        [mkReport "p1" (95/100), mkReport "p2" (94/100), mkReport "p3" (96/100)]
        ⟨2, 3, true⟩ =
      Except.ok ⟨0, 0, 0, 0, ConsensusLevel.low, []⟩ :=
  aggregate_all_signatures_invalid _ _ _ rfl (by norm_num) (fun _ _ => rfl)

/-- **C4.** `aggregate` fails exactly when the input list (before any
signature filtering) has fewer than `minPeers` reports; otherwise it
returns normally and processes exactly the signature-surviving reports,
however few survive (their scores being the recorded `peerScores`). -/
theorem aggregate_minPeers_gate (verify : PeerReport → Bool) (reports : List PeerReport)
    (options : AggregateOptions) (hvs : options.verifySignatures = true) :
    (aggregate verify reports options).toOption.map
        (fun res => res.peerScores.map PeerScoreEntry.score)
      = if options.minPeers ≤ reports.length
          then some ((reports.filter verify).map PeerReport.confidenceScore)
          else none := by
  unfold aggregate
  rcases lt_or_le reports.length options.minPeers with h | h
  · rw [if_pos h, if_neg (by omega)]
    rfl
  · rw [if_neg (not_lt.mpr h), if_pos h]
    simp only [hvs, if_true, verifyReportSignatures, Except.toOption, Option.map]
    rw [List.map_map]
    rfl

/-- Witness for C4: four reports, one of which fails verification; the
aggregation proceeds on the surviving three scores without raising. -/
theorem aggregate_minPeers_gate_witness :
    (aggregate (fun r => decide (r.confidenceScore ≠ 96/100))
        [mkReport "p1" (95/100), mkReport "p2" (94/100), mkReport "bad" (96/100),
         mkReport "p4" (97/100)]
        ⟨2, 3, true⟩).toOption.map
        (fun res => res.peerScores.map PeerScoreEntry.score)
      = some [95/100, 94/100, 97/100] := by
  rw [aggregate_minPeers_gate _ _ _ rfl]
  norm_num [mkReport, List.filter]

/-- **C6.** Whenever all input scores lie in `[0, 1]` and `aggregate`
returns a result (whatever the signature verifier and the outlier
detection decide), the aggregated score lies in `[0, 1]`. -/
theorem aggregate_score_in_unit_interval (verify : PeerReport → Bool)
    (reports : List PeerReport) (options : AggregateOptions)
    (res : ConfidenceAggregation)
    (hbounds : ∀ r ∈ reports, 0 ≤ r.confidenceScore ∧ r.confidenceScore ≤ 1)
    (hok : aggregate verify reports options = Except.ok res) :
    0 ≤ res.aggregatedScore ∧ res.aggregatedScore ≤ 1 := by
  unfold aggregate at hok
  rcases lt_or_le reports.length options.minPeers with h | h
  · rw [if_pos h] at hok
    cases hok
  · rw [if_neg (not_lt.mpr h)] at hok
    simp only [Except.ok.injEq] at hok
    subst hok
    apply computeMean_mem_unit
    intro x hx
    have hx1 := List.mem_of_mem_filter hx
    obtain ⟨r, hr, rfl⟩ := List.mem_map.mp hx1
    apply hbounds
    by_cases hv : options.verifySignatures
    · rw [if_pos hv] at hr
      exact List.mem_of_mem_filter hr
    · rwa [if_neg hv] at hr

/-- Witness for C6: the five-peer scenario scores all lie in `[0,1]` and
the aggregated score `0.774` lies in `[0, 1]`. -/
theorem aggregate_score_in_unit_interval_witness :
    (0 : ℚ) ≤ 387/500 ∧ (387/500 : ℚ) ≤ 1 := by
  have h := aggregate_score_in_unit_interval (fun _ => true) scenarioReports ⟨2, 3, false⟩
    { aggregatedScore := 387/500
      reportCount := 5
      outlierCount := 0
      standardDeviation := Real.sqrt ((16393/125000 : ℚ) : ℝ)
      consensusLevel := ConsensusLevel.low
      peerScores :=
        [⟨"p1", 95/100, true⟩, ⟨"p2", 94/100, true⟩, ⟨"p3", 96/100, true⟩,
         ⟨"p4", 5/100, true⟩, ⟨"p5", 97/100, true⟩] }
    (by
      intro r hr
      simp only [scenarioReports, mkReport, List.mem_cons, List.mem_singleton] at hr
      rcases hr with rfl | rfl | rfl | rfl | rfl | h
      · norm_num
      · norm_num
      · norm_num
      · norm_num
      · norm_num
      · cases h)
    scenario_aggregate_eq
  exact h

/-- **C7 counterexample.** The claim promises that when the standard
deviation is zero no report is flagged, for every threshold.  With three
identical scores (standard deviation 0) and threshold `-1`, the source's
test `zScore > threshold` compares `0 > -1` and flags every report: the
outlier count is 3, not 0. -/
theorem zero_stdDev_negative_threshold_flags_all :
    (aggregate (fun _ => true)
        [mkReport "p1" (1/2), mkReport "p2" (1/2), mkReport "p3" (1/2)]
        ⟨-1, 3, false⟩).toOption.map
        (fun res => (res.outlierCount, res.standardDeviation))
      = some (3, 0) := by
  have hmean : computeMean [1/2, 1/2, 1/2] = 1/2 := by norm_num [computeMean]
  have hvar : computeVariance [1/2, 1/2, 1/2] (1/2) = 0 := by norm_num [computeVariance]
  have ho : isOutlier (1/2) (1/2) 0 (-1) = true := by
    unfold isOutlier
    rw [if_neg (lt_irrefl 0)]
    norm_num
  unfold aggregate
  rw [if_neg (by norm_num)]
  simp only [mkReport, verifyReportSignatures, Bool.false_eq_true, if_false,
    List.map_cons, List.map_nil, detectOutliers, List.filter_cons, List.filter_nil,
    hmean, hvar, ho, Bool.not_true, if_false, computeStdDev, Except.toOption,
    Option.map, List.count]
  norm_num [List.countP, List.countP.go]

/-- **C7 amended.** In `aggregate`, restricted to a nonnegative
`outlierThreshold` (as the default 2.0 is), a surviving report is flagged
as an outlier (its `peerScores` entry has `included = false`) exactly when
`|score - mean| / stdDev > outlierThreshold`, where mean and stdDev are
computed over all signature-surviving scores; in particular a stdDev of 0
flags nothing (the quotient is `0` under the convention `x / 0 = 0`,
matching the source's explicit `stdDev > 0` guard). -/
theorem aggregate_outlier_iff (verify : PeerReport → Bool) (reports : List PeerReport)
    (options : AggregateOptions) (res : ConfidenceAggregation) (p : PeerScoreEntry)
    (_ht : 0 ≤ options.outlierThreshold)
    (hok : aggregate verify reports options = Except.ok res)
    (hp : p ∈ res.peerScores) :
    (p.included = false ↔
      (options.outlierThreshold : ℝ) <
        |(p.score : ℝ) - ((computeMean (survivingScores verify reports options) : ℚ) : ℝ)| /
          computeStdDev (survivingScores verify reports options)
            (computeMean (survivingScores verify reports options))) := by
  unfold aggregate at hok
  rcases lt_or_le reports.length options.minPeers with h | h
  · rw [if_pos h] at hok
    cases hok
  · rw [if_neg (not_lt.mpr h)] at hok
    simp only [Except.ok.injEq] at hok
    subst hok
    obtain ⟨r, hr, rfl⟩ := List.mem_map.mp hp
    unfold survivingScores
    have hne :
        ((if options.verifySignatures then verifyReportSignatures verify reports
            else reports).map PeerReport.confidenceScore).length ≠ 0 := by
      intro hlen
      rw [List.length_map, List.length_eq_zero] at hlen
      rw [hlen] at hr
      cases hr
    show (!isOutlier r.confidenceScore _ _ options.outlierThreshold) = false ↔ _
    rw [Bool.not_eq_false']
    rw [show computeStdDev
          ((if options.verifySignatures then verifyReportSignatures verify reports
              else reports).map PeerReport.confidenceScore)
          (computeMean
            ((if options.verifySignatures then verifyReportSignatures verify reports
                else reports).map PeerReport.confidenceScore)) =
        Real.sqrt ((computeVariance
          ((if options.verifySignatures then verifyReportSignatures verify reports
              else reports).map PeerReport.confidenceScore)
          (computeMean
            ((if options.verifySignatures then verifyReportSignatures verify reports
                else reports).map PeerReport.confidenceScore)) : ℚ) : ℝ) from by
      unfold computeStdDev
      rw [if_neg hne]]
    rw [isOutlier_iff_zscore _ _ _ _ (computeVariance_nonneg _ _)]
    by_cases hsq :
        (0 : ℝ) < Real.sqrt ((computeVariance
          ((if options.verifySignatures then verifyReportSignatures verify reports
              else reports).map PeerReport.confidenceScore)
          (computeMean
            ((if options.verifySignatures then verifyReportSignatures verify reports
                else reports).map PeerReport.confidenceScore)) : ℚ) : ℝ)
    · rw [if_pos hsq]
    · rw [if_neg hsq]
      rw [le_antisymm (not_lt.mp hsq) (Real.sqrt_nonneg _), div_zero]

/-- Witness for C7 amended: the `0.05` entry of the five-peer scenario is
not flagged (`included = true`), matching its z-score `≈ 1.9992` not
exceeding the threshold 2. -/
theorem aggregate_outlier_iff_witness :
    ((⟨"p4", 5/100, true⟩ : PeerScoreEntry).included = false ↔
      (((⟨2, 3, false⟩ : AggregateOptions).outlierThreshold : ℝ) <
        |((⟨"p4", 5/100, true⟩ : PeerScoreEntry).score : ℝ) -
            ((computeMean (survivingScores (fun _ => true) scenarioReports ⟨2, 3, false⟩) : ℚ) : ℝ)| /
          computeStdDev (survivingScores (fun _ => true) scenarioReports ⟨2, 3, false⟩)
            (computeMean (survivingScores (fun _ => true) scenarioReports ⟨2, 3, false⟩)))) :=
  aggregate_outlier_iff (fun _ => true) scenarioReports ⟨2, 3, false⟩ _ _ (by norm_num)
    scenario_aggregate_eq
    (List.mem_cons_of_mem _ (List.mem_cons_of_mem _ (List.mem_cons_of_mem _
      (List.mem_cons_self _ _))))

/-- **C1 counterexample.** On the five-peer scenario
`{0.95, 0.94, 0.96, 0.05, 0.97}` with `outlierThreshold = 2.0` (signature
verification disabled), the `0.05` report is *not* flagged: its z-score is
`0.724 / √0.131144 ≈ 1.9992 < 2`, so the outlier count is 0, not 1. -/
theorem scenario_no_outlier_flagged :
    ¬ ((aggregate (fun _ => true) scenarioReports ⟨2, 3, false⟩).toOption.map
          ConfidenceAggregation.outlierCount = some 1) := by
  rw [scenario_aggregate_eq]
  simp [Except.toOption]

/-- **C1 amended.** On the five-peer scenario with threshold 2.0, no
report is excluded: `outlierCount = 0`, `aggregatedScore = 0.774` (the
mean of all five scores), and `consensusLevel = 'low'` (the coefficient of
variation `≈ 0.468` is not below 0.3). -/
theorem scenario_aggregation_values :
    (aggregate (fun _ => true) scenarioReports ⟨2, 3, false⟩).toOption.map
        (fun res => (res.aggregatedScore, res.outlierCount, res.consensusLevel))
      = some (387/500, 0, ConsensusLevel.low) := by
  rw [scenario_aggregate_eq]
  rfl

/-- **C9.** `analyzeTampering` derives `riskLevel` low/medium/high from
the indicator count (`0`, `1–2`, `≥ 3`) and sets `tamperingLikely` exactly
when at least 2 of the four indicators (score `< 0.3`, consensus low,
outlier ratio `> 0.3`, standard deviation `> 0.3`) fire. -/
theorem analyzeTampering_spec (a : ConfidenceAggregation) :
    ((analyzeTampering a).riskLevel =
        if tamperIndicatorCount a = 0 then RiskLevel.low
        else if tamperIndicatorCount a ≤ 2 then RiskLevel.medium
        else RiskLevel.high)
      ∧ ((analyzeTampering a).tamperingLikely = true ↔ 2 ≤ tamperIndicatorCount a) := by
  unfold analyzeTampering tamperIndicatorCount
  by_cases h1 : a.aggregatedScore < 3/10 <;>
    by_cases h2 : a.consensusLevel = ConsensusLevel.low <;>
      by_cases h3 :
        3/10 < (a.outlierCount : ℚ) / ((a.reportCount : ℚ) + (a.outlierCount : ℚ)) <;>
        by_cases h4 : (3/10 : ℝ) < a.standardDeviation <;>
          simp [h1, h2, h3, h4]

/-- **C2 counterexample.** A responding peer with no local fingerprint for
the requested media: `handleFingerprintRequest` throws
(`'No matching fingerprint found locally'`); it does not return a
zero-similarity report. -/
theorem handleFingerprintRequest_missing_throws :
    handleFingerprintRequest (fun _ => none) 0 "r" "p" "t"
        ⟨"media-1", "hash-1", []⟩
      = Except.error "No matching fingerprint found locally" := rfl

/-- **C2 amended.** Whenever the local fingerprint lookup returns null,
`handleFingerprintRequest` raises the error
`'No matching fingerprint found locally'` instead of returning any
response (in particular it returns no zero-similarity negative report). -/
theorem handleFingerprintRequest_missing_errors
    (extractorCallback : String → Option Fingerprint) (randScore : ℚ)
    (randReportId randPeerId timestamp : String) (request : FingerprintRequest)
    (hmiss : extractorCallback request.fingerprintHash = none) :
    handleFingerprintRequest extractorCallback randScore randReportId randPeerId
        timestamp request
      = Except.error "No matching fingerprint found locally" := by
  unfold handleFingerprintRequest
  rw [hmiss]

/-- Witness for C2 amended at a concrete request and empty store. -/
theorem handleFingerprintRequest_missing_errors_witness :
    handleFingerprintRequest (fun _ => none) (1/2) "report-1" "peer-1" "2024-06-01"
        ⟨"media-9", "hash-9", [3]⟩
      = Except.error "No matching fingerprint found locally" :=
  handleFingerprintRequest_missing_errors _ _ _ _ _ _ rfl

/-- **C8 counterexample.** The claimed biconditional
"`extract` raises `AudioTooShortError` exactly when
`samples.length / sampleRate < minDuration`" fails for a negative sample
rate: with `sampleRate = -1` and 5 samples, `5 / (-1) = -5 < 5` yet the
guard `5 < (-1) * 5` is false and `extract` accepts the audio. -/
theorem extract_negative_sampleRate_accepted :
    (extract {} (fun _ => "h") "now" (fun _ => 0) 5 (-1)).isSome = true
      ∧ ((5 : ℚ) / (-1) < ({} : FingerprintConfig).minDuration) := by
  constructor
  · unfold extract
    rw [if_neg (by norm_num)]
    rfl
  · norm_num

/-- **C8 amended.** For every positive sample rate, `extract` fails with
`AudioTooShortError` exactly when `N / sampleRate < minDuration` (the
source's guard `N < sampleRate * minDuration`); no fingerprint is produced
in that case. -/
theorem extract_tooShort_iff (config : FingerprintConfig) (hashFn : List ℝ → String)
    (extractedAt : String) (audioData : ℕ → ℝ) (N : ℕ) (sampleRate : ℚ)
    (hsr : 0 < sampleRate) :
    extract config hashFn extractedAt audioData N sampleRate = none ↔
      (N : ℚ) / sampleRate < config.minDuration := by
  have hdiv : ((N : ℚ) / sampleRate < config.minDuration) ↔
      (N : ℚ) < sampleRate * config.minDuration := by
    rw [div_lt_iff hsr, mul_comm]
  rw [hdiv]
  unfold extract
  by_cases h : (N : ℚ) < sampleRate * config.minDuration
  · rw [if_pos h]
    simp [h]
  · rw [if_neg h]
    simp [h]

/-- Witness for C8 amended: 2 seconds of audio at 44100 Hz (88200
samples) is rejected under the default `minDuration = 5`. -/
theorem extract_tooShort_iff_witness :
    (extract {} (fun _ => "h") "now" (fun _ => 0) 88200 44100 = none ↔
        (88200 : ℚ) / 44100 < ({} : FingerprintConfig).minDuration)
      ∧ extract {} (fun _ => "h") "now" (fun _ => 0) 88200 44100 = none := by
  have h := extract_tooShort_iff {} (fun _ => "h") "now" (fun _ => 0) 88200 44100
    (by norm_num)
  refine ⟨h, ?_⟩
  rw [h]
  norm_num

/-! ## General lemmas about the comparator -/

/-- Folding `ccStep` over offsets all of whose correlations are below `c`
keeps the accumulator below `c` (or `none`). -/
theorem foldl_ccStep_lt (vector1 vector2 : List ℝ) (c : ℝ) :
    ∀ (L : List ℤ) (acc : Option (ℝ × ℤ)),
      (acc = none ∨ ∃ p, acc = some p ∧ p.1 < c) →
      (∀ k ∈ L, correlationAt vector1 vector2 k < c) →
      (L.foldl (ccStep vector1 vector2) acc = none ∨
        ∃ p, L.foldl (ccStep vector1 vector2) acc = some p ∧ p.1 < c) := by
  intro L
  induction L with
  | nil =>
      intro acc hacc _
      simpa using hacc
  | cons a t ih =>
      intro acc hacc hL
      rw [List.foldl_cons]
      apply ih
      · rcases hacc with rfl | ⟨p, rfl, hp⟩
        · exact Or.inr ⟨(correlationAt vector1 vector2 a, a), rfl, hL a (by simp)⟩
        · obtain ⟨b, o⟩ := p
          by_cases hb : b < correlationAt vector1 vector2 a
          · refine Or.inr ⟨(correlationAt vector1 vector2 a, a), ?_, hL a (by simp)⟩
            simp only [ccStep]
            rw [if_pos hb]
          · refine Or.inr ⟨(b, o), ?_, hp⟩
            simp only [ccStep]
            rw [if_neg hb]
      · intro k hk
        exact hL k (by simp [hk])

/-- Folding `ccStep` over offsets whose correlations do not exceed the
accumulated best leaves the accumulator unchanged (ties do not move the
best offset). -/
theorem foldl_ccStep_stable (vector1 vector2 : List ℝ) (b : ℝ) (o : ℤ) :
    ∀ (L : List ℤ), (∀ k ∈ L, correlationAt vector1 vector2 k ≤ b) →
      L.foldl (ccStep vector1 vector2) (some (b, o)) = some (b, o) := by
  intro L
  induction L with
  | nil => intro _; rfl
  | cons a t ih =>
      intro hL
      rw [List.foldl_cons]
      have hstep : ccStep vector1 vector2 (some (b, o)) a = some (b, o) := by
        simp only [ccStep]
        rw [if_neg (not_lt.mpr (hL a (by simp)))]
      rw [hstep]
      exact ih (fun k hk => hL k (by simp [hk]))

/-- The search loop returns the strictly dominant offset `z` when every
offset left of `z` has strictly smaller correlation and no offset right of
`z` reaches it. -/
theorem foldl_ccStep_argmax (vector1 vector2 : List ℝ) (L1 L2 : List ℤ) (z : ℤ)
    (h1 : ∀ k ∈ L1, correlationAt vector1 vector2 k < correlationAt vector1 vector2 z)
    (h2 : ∀ k ∈ L2, correlationAt vector1 vector2 k ≤ correlationAt vector1 vector2 z) :
    (L1 ++ z :: L2).foldl (ccStep vector1 vector2) none =
      some (correlationAt vector1 vector2 z, z) := by
  rw [List.foldl_append]
  rcases foldl_ccStep_lt vector1 vector2 (correlationAt vector1 vector2 z) L1 none
      (Or.inl rfl) h1 with h | ⟨p, heq, hp⟩
  · rw [h, List.foldl_cons]
    have hstep : ccStep vector1 vector2 none z =
        some (correlationAt vector1 vector2 z, z) := rfl
    rw [hstep]
    exact foldl_ccStep_stable vector1 vector2 _ _ L2 h2
  · obtain ⟨b, o⟩ := p
    rw [heq, List.foldl_cons]
    have hstep : ccStep vector1 vector2 (some (b, o)) z =
        some (correlationAt vector1 vector2 z, z) := by
      simp only [ccStep]
      rw [if_pos hp]
    rw [hstep]
    exact foldl_ccStep_stable vector1 vector2 _ _ L2 h2

/-- The offset range has no duplicates. -/
theorem offsetRange_nodup (maxOffset : ℕ) : (offsetRange maxOffset).Nodup := by
  unfold offsetRange
  refine List.Nodup.map ?_ (List.nodup_range _)
  intro a b hab
  dsimp only at hab
  omega

/-- `0` belongs to every offset range. -/
theorem zero_mem_offsetRange (maxOffset : ℕ) : (0 : ℤ) ∈ offsetRange maxOffset := by
  unfold offsetRange
  refine List.mem_map.mpr ⟨maxOffset, List.mem_range.mpr (by omega), ?_⟩
  dsimp only
  omega

/-- `crossCorrelate` on a pair whose zero-offset correlation strictly
dominates every other offset of the range returns that correlation with
offset `0`. -/
theorem crossCorrelate_eq_of_dominant (vector1 vector2 : List ℝ)
    (hdom : ∀ k ∈ offsetRange (min vector1.length vector2.length / 2), k ≠ 0 →
      correlationAt vector1 vector2 k < correlationAt vector1 vector2 0) :
    crossCorrelate vector1 vector2 = (correlationAt vector1 vector2 0, 0) := by
  show (((offsetRange (min vector1.length vector2.length / 2)).foldl
      (ccStep vector1 vector2) none).getD (0, 0)) = (correlationAt vector1 vector2 0, 0)
  obtain ⟨L1, L2, hsplit⟩ :=
    List.append_of_mem (zero_mem_offsetRange (min vector1.length vector2.length / 2))
  have hnd := offsetRange_nodup (min vector1.length vector2.length / 2)
  rw [hsplit] at hnd
  have hnotL1 : (0 : ℤ) ∉ L1 := by
    intro h0
    have hdisj := (List.nodup_append.mp hnd).2.2
    exact hdisj h0 (List.mem_cons_self _ _)
  have hnotL2 : (0 : ℤ) ∉ L2 := by
    have := (List.nodup_append.mp hnd).2.1
    intro h0
    exact (List.nodup_cons.mp this).1 h0
  rw [hsplit]
  rw [foldl_ccStep_argmax vector1 vector2 L1 L2 0 ?_ ?_]
  · rfl
  · intro k hk
    have hkmem : k ∈ offsetRange (min vector1.length vector2.length / 2) := by
      rw [hsplit]
      exact List.mem_append.mpr (Or.inl hk)
    have hkne : k ≠ 0 := fun h => hnotL1 (h ▸ hk)
    exact hdom k hkmem hkne
  · intro k hk
    have hkmem : k ∈ offsetRange (min vector1.length vector2.length / 2) := by
      rw [hsplit]
      exact List.mem_append.mpr (Or.inr (List.mem_cons_of_mem _ hk))
    have hkne : k ≠ 0 := fun h => hnotL2 (h ▸ hk)
    exact le_of_lt (hdom k hkmem hkne)

/-- The zero-offset self-correlation is the mean of the squared entries
(or `0` for the empty vector). -/
theorem correlationAt_self_zero (v : List ℝ) :
    correlationAt v v 0 =
      if 0 < v.length
      then ((List.range v.length).map (fun i => v.getD i 0 ^ 2)).sum / (v.length : ℝ)
      else 0 := by
  have hfilter : (List.range v.length).filter
      (fun (i : ℕ) => decide (0 ≤ (i : ℤ) + 0 ∧ (i : ℤ) + 0 < (v.length : ℤ))) =
      List.range v.length := by
    apply List.filter_eq_self.mpr
    intro i hi
    rw [List.mem_range] at hi
    simp only [decide_eq_true_eq]
    omega
  have hmap : (List.range v.length).map
        (fun i => v.getD i 0 * v.getD ((i : ℤ) + 0).toNat 0) =
      (List.range v.length).map (fun i => v.getD i 0 ^ 2) := by
    apply List.map_congr_left
    intro i _
    have h0 : ((i : ℤ) + 0).toNat = i := by omega
    rw [h0, sq]
  simp only [correlationAt, min_self]
  rw [hfilter, hmap, List.length_range]

/-- Aligning with offset `0` is the identity. -/
theorem alignVectors_zero (v : List ℝ) : alignVectors v 0 = v := by
  unfold alignVectors
  apply List.ext_getElem
  · rw [List.length_map, List.length_range]
  · intro i h1 h2
    simp only [List.getElem_map, List.getElem_range]
    have hcond : 0 ≤ (i : ℤ) + 0 ∧ (i : ℤ) + 0 < (v.length : ℤ) := by
      constructor
      · omega
      · omega
    rw [if_pos hcond]
    have h0 : ((i : ℤ) + 0).toNat = i := by omega
    rw [h0]
    exact List.getD_eq_getElem v 0 h2

/-- Cosine similarity of a vector with itself is `1` as soon as its
squared norm over the compared prefix is positive. -/
theorem cosineSimilarity_self (v : List ℝ)
    (hS : 0 < ((List.range v.length).map (fun i => v.getD i 0 ^ 2)).sum) :
    cosineSimilarity v v = 1 := by
  have hdot : (List.range v.length).map (fun i => v.getD i 0 * v.getD i 0) =
      (List.range v.length).map (fun i => v.getD i 0 ^ 2) := by
    apply List.map_congr_left
    intro i _
    rw [sq]
  simp only [cosineSimilarity, min_self]
  rw [hdot]
  set S := ((List.range v.length).map (fun i => v.getD i 0 ^ 2)).sum with hSdef
  have hmag : Real.sqrt (S * S) = S := by
    rw [← sq]
    exact Real.sqrt_sq hS.le
  rw [hmag, if_pos hS]
  exact div_self (ne_of_gt hS)

/-- Concrete correlation values for the vector `[1, 1]`. -/
theorem correlationAt_ones_neg : correlationAt [1, 1] [1, 1] (-1) = 1 := by
  simp [correlationAt, List.range_succ, List.filter]

/-- Concrete correlation value at offset `0` for `[1, 1]`. -/
theorem correlationAt_ones_zero : correlationAt [1, 1] [1, 1] 0 = 1 := by
  simp [correlationAt, List.range_succ, List.filter]

/-- Concrete correlation value at offset `1` for `[1, 1]`. -/
theorem correlationAt_ones_pos : correlationAt [1, 1] [1, 1] 1 = 1 := by
  simp [correlationAt, List.range_succ, List.filter]

/-- On `[1, 1]` the three offsets tie with correlation `1`, and the loop
keeps the first one, `-1`. -/
theorem crossCorrelate_ones : crossCorrelate [1, 1] [1, 1] = (1, -1) := by
  have s2 : ccStep [1, 1] [1, 1] (some (1, -1)) 0 = some (1, -1) := by
    simp only [ccStep]
    rw [correlationAt_ones_zero, if_neg (lt_irrefl (1 : ℝ))]
  have s3 : ccStep [1, 1] [1, 1] (some (1, -1)) 1 = some (1, -1) := by
    simp only [ccStep]
    rw [correlationAt_ones_pos, if_neg (lt_irrefl (1 : ℝ))]
  show (((offsetRange (min ([(1:ℝ), 1]).length ([(1:ℝ), 1]).length / 2)).foldl
      (ccStep [1, 1] [1, 1]) none).getD (0, 0)) = (1, -1)
  rw [show min ([(1:ℝ), 1]).length ([(1:ℝ), 1]).length / 2 = 1 from rfl]
  rw [show offsetRange 1 = [-1, 0, 1] from rfl]
  simp only [List.foldl_cons, List.foldl_nil]
  rw [show ccStep [1, 1] [1, 1] none (-1) =
    some (correlationAt [1, 1] [1, 1] (-1), -1) from rfl]
  rw [correlationAt_ones_neg, s2, s3]
  rfl

/-- Realigning `[1, 1]` by the found offset `-1` yields `[0, 1]`. -/
theorem alignVectors_ones : alignVectors [1, 1] (-1) = [0, 1] := by
  simp [alignVectors, List.range_succ]

/-- Cosine similarity of `[1, 1]` against the realigned `[0, 1]`. -/
theorem cosineSimilarity_ones : cosineSimilarity [(1:ℝ), 1] [(0:ℝ), 1] = 1 / Real.sqrt 2 := by
  simp [cosineSimilarity, List.range_succ]
  norm_num [Real.sqrt_pos]

/-- The self-comparison of `fpOnes` in closed form: the tied offset `-1`
knocks the cosine part down to `1/√2`. -/
theorem compare_fpOnes_eq :
    compare {} fpOnes fpOnes =
      { similarity := (1 + 1 / Real.sqrt 2) / 2
        correlation := 1
        confidence :=
          determineConfidence ((1 + 1 / Real.sqrt 2) / 2) 1 1
        timeOffset := (-1 : ℤ) * ((({} : FingerprintConfig).hopSize : ℚ) /
          ({} : FingerprintConfig).sampleRate)
        proximityEstimate :=
          estimateProximity ((1 + 1 / Real.sqrt 2) / 2) (-1 : ℤ).natAbs } := by
  unfold compare
  rw [if_neg (by norm_num [fpOnes])]
  simp only [fpOnes]
  rw [crossCorrelate_ones]
  dsimp only
  rw [alignVectors_ones, cosineSimilarity_ones]

/-- **C3 counterexample.** The fingerprint with vector `[1, 1]` (non-empty,
extraction quality 1) has `compare(fp, fp).similarity = (1 + 1/√2)/2 ≈
0.8536 < 0.95`: identical self-comparison does not guarantee similarity
at least 0.95. -/
theorem compare_self_not_high_similarity :
    ¬ ((95 : ℝ)/100 ≤ (compare {} fpOnes fpOnes).similarity ∧
        (compare {} fpOnes fpOnes).proximityEstimate = ProximityEstimate.same_location) := by
  intro h
  obtain ⟨h95, _⟩ := h
  rw [compare_fpOnes_eq] at h95
  dsimp only at h95
  have hs2 : (10/9 : ℝ) < Real.sqrt 2 := by
    rw [show (10/9 : ℝ) = Real.sqrt ((10/9)^2) from (Real.sqrt_sq (by norm_num)).symm]
    apply Real.sqrt_lt_sqrt <;> norm_num
  have hinv : (1 : ℝ)/Real.sqrt 2 < 9/10 := by
    rw [div_lt_iff (by positivity)]
    nlinarith
  linarith

/-- **C3 amended.** Self-comparison does reach `similarity ≥ 0.95` with
`proximityEstimate = 'same_location'` for every fingerprint whose
zero-offset self-correlation strictly dominates every other offset of the
search range and is at least `0.9` — then the loop aligns at offset `0`,
the cosine part is `1`, and `similarity = (corr₀ + 1)/2 ≥ 0.95`. -/
theorem compare_self_same_location_of_peak (config : FingerprintConfig) (fp : Fingerprint)
    (hdom : ∀ k ∈ offsetRange (fp.vector.length / 2), k ≠ 0 →
      correlationAt fp.vector fp.vector k < correlationAt fp.vector fp.vector 0)
    (hc0 : (9 : ℝ)/10 ≤ correlationAt fp.vector fp.vector 0) :
    (95 : ℝ)/100 ≤ (compare config fp fp).similarity ∧
      (compare config fp fp).proximityEstimate = ProximityEstimate.same_location := by
  have hcc := crossCorrelate_eq_of_dominant fp.vector fp.vector
    (by rw [min_self]; exact hdom)
  have hS : 0 < ((List.range fp.vector.length).map (fun i => fp.vector.getD i 0 ^ 2)).sum := by
    rw [correlationAt_self_zero] at hc0
    by_cases hl : 0 < fp.vector.length
    · rw [if_pos hl] at hc0
      have hn : (0 : ℝ) < (fp.vector.length : ℝ) := by exact_mod_cast hl
      have hge := (le_div_iff hn).mp hc0
      nlinarith
    · rw [if_neg hl] at hc0
      norm_num at hc0
  have hcos := cosineSimilarity_self fp.vector hS
  have halign := alignVectors_zero fp.vector
  have hcomp : compare config fp fp =
      { similarity := (correlationAt fp.vector fp.vector 0 + 1) / 2
        correlation := correlationAt fp.vector fp.vector 0
        confidence :=
          determineConfidence ((correlationAt fp.vector fp.vector 0 + 1) / 2)
            fp.extractionQuality fp.extractionQuality
        timeOffset := ((0 : ℤ) : ℚ) * ((config.hopSize : ℚ) / config.sampleRate)
        proximityEstimate :=
          estimateProximity ((correlationAt fp.vector fp.vector 0 + 1) / 2)
            (0 : ℤ).natAbs } := by
    unfold compare
    rw [if_neg (by norm_num)]
    rw [hcc]
    dsimp only
    rw [halign, hcos]
  constructor
  · rw [hcomp]
    dsimp only
    linarith
  · rw [hcomp]
    dsimp only
    unfold estimateProximity
    rw [if_pos ⟨by linarith, by norm_num⟩]

/-- Correlation of `[1, 0.95]` with itself at offset `-1`. -/
theorem correlationAt_peak_neg :
    correlationAt [(1:ℝ), 19/20] [(1:ℝ), 19/20] (-1) = 19/20 := by
  simp [correlationAt, List.range_succ, List.filter]

/-- Correlation of `[1, 0.95]` with itself at offset `0`. -/
theorem correlationAt_peak_zero :
    correlationAt [(1:ℝ), 19/20] [(1:ℝ), 19/20] 0 = 761/800 := by
  simp [correlationAt, List.range_succ, List.filter]
  norm_num

/-- Correlation of `[1, 0.95]` with itself at offset `1`. -/
theorem correlationAt_peak_pos :
    correlationAt [(1:ℝ), 19/20] [(1:ℝ), 19/20] 1 = 19/20 := by
  simp [correlationAt, List.range_succ, List.filter]

/-- Witness for C3 amended: the fingerprint `[1, 0.95]` satisfies the
domination hypotheses (`0.95 < 0.95125`) and indeed compares to itself
with similarity at least 0.95 at the same location. -/
theorem compare_self_same_location_of_peak_witness :
    (95 : ℝ)/100 ≤ (compare {} fpPeak fpPeak).similarity ∧
      (compare {} fpPeak fpPeak).proximityEstimate = ProximityEstimate.same_location := by
  apply compare_self_same_location_of_peak
  · intro k hk hkne
    have hv : fpPeak.vector = [(1:ℝ), 19/20] := rfl
    rw [hv] at hk ⊢
    rw [show ([(1:ℝ), 19/20]).length / 2 = 1 from rfl,
      show offsetRange 1 = [-1, 0, 1] from rfl] at hk
    simp only [List.mem_cons, List.not_mem_nil, or_false] at hk
    rcases hk with rfl | rfl | rfl
    · rw [correlationAt_peak_neg, correlationAt_peak_zero]
      norm_num
    · exact absurd rfl hkne
    · rw [correlationAt_peak_pos, correlationAt_peak_zero]
      norm_num
  · rw [show fpPeak.vector = [(1:ℝ), 19/20] from rfl, correlationAt_peak_zero]
    norm_num

/-! ## The spike input: bandpass, Hamming and DFT bounds (claim C5) -/

/-- Closed form of the bandpass filter on the spike input: the spike
keeps `100 - 100/29` of its mass, the 29 following samples (whose
moving-average windows still contain the spike) receive `-100/(t+29)`,
and everything later is untouched zero. -/
theorem spikeFiltered_eq (t : ℕ) :
    bandpassFilter spikeAudio 8000 1600 45 65 t =
      if t = 0 then 2800/29
      else if t ≤ 29 then -(100/((t : ℝ) + 29))
      else 0 := by
  have hws : bandWindowSize 1600 45 65 = 29 := by
    unfold bandWindowSize
    rw [Int.floor_eq_iff]
    constructor <;> norm_num
  unfold bandpassFilter
  rw [hws]
  dsimp only
  rw [show (∑ j ∈ Finset.Ico ((max 0 ((t : ℤ) - 29)).toNat)
        (min 8000 (((t : ℤ) + 29).toNat)), spikeAudio j) =
      if 0 ∈ Finset.Ico ((max 0 ((t : ℤ) - 29)).toNat)
        (min 8000 (((t : ℤ) + 29).toNat)) then (100 : ℝ) else 0 from by
    unfold spikeAudio
    exact Finset.sum_ite_eq' _ 0 (fun _ => 100)]
  by_cases h0 : t = 0
  · subst h0
    rw [if_pos rfl]
    simp only [Nat.cast_zero]
    have hlo : ((max 0 ((0 : ℤ) - 29)).toNat) = 0 := by omega
    have hhi : (min 8000 (((0 : ℤ) + 29).toNat)) = 29 := by omega
    rw [hlo, hhi]
    rw [if_pos (Finset.mem_Ico.mpr (by omega))]
    rw [show spikeAudio 0 = 100 from rfl]
    rw [Nat.card_Ico]
    norm_num
  · by_cases h29 : t ≤ 29
    · rw [if_neg h0, if_pos h29]
      have hlo : ((max 0 ((t : ℤ) - 29)).toNat) = 0 := by omega
      have hhi : (min 8000 (((t : ℤ) + 29).toNat)) = t + 29 := by omega
      rw [hlo, hhi]
      rw [if_pos (Finset.mem_Ico.mpr (by omega))]
      rw [show spikeAudio t = 0 from by unfold spikeAudio; rw [if_neg h0]]
      rw [Nat.card_Ico]
      have : ((t + 29 - 0 : ℕ) : ℝ) = (t : ℝ) + 29 := by push_cast; ring
      rw [this]
      ring
    · rw [if_neg h0, if_neg h29]
      rw [if_neg (by
        intro hmem
        have := (Finset.mem_Ico.mp hmem).1
        omega)]
      rw [show spikeAudio t = 0 from by unfold spikeAudio; rw [if_neg h0]]
      norm_num

/-- The Hamming coefficient at sample 0 is exactly `0.54 - 0.46 = 0.08`. -/
theorem hammingWindow_zero : hammingWindow 4096 0 = 2/25 := by
  unfold hammingWindow
  simp
  norm_num

/-- The Hamming coefficients are nonnegative. -/
theorem hammingWindow_nonneg (n t : ℕ) : 0 ≤ hammingWindow n t := by
  unfold hammingWindow
  have h := Real.cos_le_one ((2 * Real.pi * t) / ((n - 1 : ℕ) : ℝ))
  linarith

/-- In the first 30 samples of a 4096-sample frame the Hamming
coefficient stays below `0.081` (quadratic cosine bound: the phase is at
most `58π/4095 < 0.045`). -/
theorem hammingWindow_le (t : ℕ) (ht : t ≤ 29) : hammingWindow 4096 t ≤ 81/1000 := by
  unfold hammingWindow
  have h4095 : ((4096 - 1 : ℕ) : ℝ) = 4095 := by norm_num
  rw [h4095]
  set x := (2 * Real.pi * t) / (4095 : ℝ) with hx
  have hπpos := Real.pi_pos
  have hπ : Real.pi < 3.15 := by
    have := Real.pi_lt_315
    linarith
  have hx0 : 0 ≤ x := by positivity
  have ht' : (t : ℝ) ≤ 29 := by exact_mod_cast ht
  have hxle : x ≤ 183/4095 := by
    rw [hx, div_le_div_iff (by norm_num) (by norm_num)]
    nlinarith
  have hx2 : x ^ 2 ≤ (183/4095) ^ 2 := by
    apply pow_le_pow_left hx0 hxle
  have hcos := Real.one_sub_sq_div_two_le_cos (x := x)
  nlinarith

/-- Each junk term of the spike frame (samples 1–29) is bounded by
`(100/(t+29)) * 0.081` in absolute value. -/
theorem spike_term_bound (k t : ℕ) (ht1 : 1 ≤ t) (ht2 : t ≤ 29) :
    |bandpassFilter spikeAudio 8000 1600 45 65 t * hammingWindow 4096 t *
        Real.cos (2 * Real.pi * k * t / 4096)|
      ≤ (100/((t : ℝ) + 29)) * (81/1000) := by
  rw [abs_mul, abs_mul]
  have hf : |bandpassFilter spikeAudio 8000 1600 45 65 t| = 100/((t : ℝ) + 29) := by
    rw [spikeFiltered_eq, if_neg (by omega), if_pos ht2, abs_neg, abs_div]
    rw [abs_of_nonneg (by norm_num : (0:ℝ) ≤ 100), abs_of_nonneg (by positivity)]
  have hw : |hammingWindow 4096 t| ≤ 81/1000 := by
    rw [abs_of_nonneg (hammingWindow_nonneg 4096 t)]
    exact hammingWindow_le t ht2
  have hc : |Real.cos (2 * Real.pi * k * t / 4096)| ≤ 1 := Real.abs_cos_le_one _
  calc |bandpassFilter spikeAudio 8000 1600 45 65 t| * |hammingWindow 4096 t| *
        |Real.cos (2 * Real.pi * k * t / 4096)|
      ≤ (100/((t : ℝ) + 29)) * (81/1000) * 1 := by
        apply mul_le_mul
        · rw [hf]
          apply mul_le_mul_of_nonneg_left hw
          positivity
        · exact hc
        · exact abs_nonneg _
        · positivity
    _ = (100/((t : ℝ) + 29)) * (81/1000) := by ring

/-- The real part of the DFT of the Hamming-windowed spike frame exceeds
1 at every bin: the `t = 0` term contributes `(2800/29)·0.08·cos 0 =
224/29 ≈ 7.72` while the 29 junk terms total at most `6.57`. -/
theorem spike_fftReal_gt_one (k : ℕ) :
    1 < fftReal
      (fun t => bandpassFilter spikeAudio 8000 1600 45 65 t * hammingWindow 4096 t)
      4096 k := by
  unfold fftReal
  simp only [Nat.cast_ofNat]
  have hzero : ∀ t ∈ Finset.range 4096, t ∉ Finset.range 30 →
      bandpassFilter spikeAudio 8000 1600 45 65 t * hammingWindow 4096 t *
        Real.cos (2 * Real.pi * k * t / 4096) = 0 := by
    intro t _ ht30
    rw [Finset.mem_range, not_lt] at ht30
    rw [spikeFiltered_eq, if_neg (by omega), if_neg (by omega)]
    ring
  rw [← Finset.sum_subset (Finset.range_subset.mpr (by norm_num)) hzero]
  rw [Finset.range_eq_Ico, Finset.sum_eq_sum_Ico_succ_bot (by norm_num)]
  have hF0 : bandpassFilter spikeAudio 8000 1600 45 65 0 * hammingWindow 4096 0 *
      Real.cos (2 * Real.pi * k * (0 : ℕ) / 4096) = 224/29 := by
    rw [spikeFiltered_eq, if_pos rfl, hammingWindow_zero]
    norm_num
  rw [hF0]
  have hchunk1 : ∀ t ∈ Finset.Ico 1 16,
      |bandpassFilter spikeAudio 8000 1600 45 65 t * hammingWindow 4096 t *
        Real.cos (2 * Real.pi * k * t / 4096)| ≤ (27/100 : ℝ) := by
    intro t htm
    obtain ⟨h1, h2⟩ := Finset.mem_Ico.mp htm
    calc |bandpassFilter spikeAudio 8000 1600 45 65 t * hammingWindow 4096 t *
          Real.cos (2 * Real.pi * k * t / 4096)|
        ≤ (100/((t : ℝ) + 29)) * (81/1000) := spike_term_bound k t h1 (by omega)
      _ ≤ (100/30) * (81/1000) := by
          have h30 : (30 : ℝ) ≤ (t : ℝ) + 29 := by
            have : (1 : ℝ) ≤ (t : ℝ) := by exact_mod_cast h1
            linarith
          have := div_le_div_of_nonneg_left (by norm_num : (0:ℝ) ≤ 100)
            (by norm_num : (0:ℝ) < 30) h30
          nlinarith
      _ = 27/100 := by norm_num
  have hchunk2 : ∀ t ∈ Finset.Ico 16 30,
      |bandpassFilter spikeAudio 8000 1600 45 65 t * hammingWindow 4096 t *
        Real.cos (2 * Real.pi * k * t / 4096)| ≤ (9/50 : ℝ) := by
    intro t htm
    obtain ⟨h1, h2⟩ := Finset.mem_Ico.mp htm
    calc |bandpassFilter spikeAudio 8000 1600 45 65 t * hammingWindow 4096 t *
          Real.cos (2 * Real.pi * k * t / 4096)|
        ≤ (100/((t : ℝ) + 29)) * (81/1000) := spike_term_bound k t (by omega) (by omega)
      _ ≤ (100/45) * (81/1000) := by
          have h45 : (45 : ℝ) ≤ (t : ℝ) + 29 := by
            have : (16 : ℝ) ≤ (t : ℝ) := by exact_mod_cast h1
            linarith
          have := div_le_div_of_nonneg_left (by norm_num : (0:ℝ) ≤ 100)
            (by norm_num : (0:ℝ) < 45) h45
          nlinarith
      _ = 9/50 := by norm_num
  have hjunk : |∑ t ∈ Finset.Ico 1 30,
      bandpassFilter spikeAudio 8000 1600 45 65 t * hammingWindow 4096 t *
        Real.cos (2 * Real.pi * k * t / 4096)| ≤ 657/100 := by
    calc |∑ t ∈ Finset.Ico 1 30,
          bandpassFilter spikeAudio 8000 1600 45 65 t * hammingWindow 4096 t *
            Real.cos (2 * Real.pi * k * t / 4096)|
        ≤ ∑ t ∈ Finset.Ico 1 30,
            |bandpassFilter spikeAudio 8000 1600 45 65 t * hammingWindow 4096 t *
              Real.cos (2 * Real.pi * k * t / 4096)| := Finset.abs_sum_le_sum_abs _ _
      _ = (∑ t ∈ Finset.Ico 1 16,
            |bandpassFilter spikeAudio 8000 1600 45 65 t * hammingWindow 4096 t *
              Real.cos (2 * Real.pi * k * t / 4096)|)
          + ∑ t ∈ Finset.Ico 16 30,
            |bandpassFilter spikeAudio 8000 1600 45 65 t * hammingWindow 4096 t *
              Real.cos (2 * Real.pi * k * t / 4096)| :=
          (Finset.sum_Ico_consecutive _ (by norm_num) (by norm_num)).symm
      _ ≤ 15 • (27/100 : ℝ) + 14 • (9/50 : ℝ) := by
          apply add_le_add
          · have := Finset.sum_le_card_nsmul (Finset.Ico 1 16) _ _ hchunk1
            simpa using this
          · have := Finset.sum_le_card_nsmul (Finset.Ico 16 30) _ _ hchunk2
            simpa using this
      _ = 657/100 := by norm_num
  have hJ := (abs_le.mp hjunk).1
  have hgap : (1 : ℝ) < 224/29 - 657/100 := by norm_num
  linarith

/-- The DFT magnitude of the spike frame exceeds 1 at every bin. -/
theorem spike_fftMagnitude_gt_one (k : ℕ) :
    1 < fftMagnitude
      (fun t => bandpassFilter spikeAudio 8000 1600 45 65 t * hammingWindow 4096 t)
      4096 k := by
  unfold fftMagnitude
  have h := spike_fftReal_gt_one k
  calc (1 : ℝ)
      < fftReal (fun t => bandpassFilter spikeAudio 8000 1600 45 65 t *
          hammingWindow 4096 t) 4096 k := h
    _ ≤ |fftReal (fun t => bandpassFilter spikeAudio 8000 1600 45 65 t *
          hammingWindow 4096 t) 4096 k| := le_abs_self _
    _ = Real.sqrt (fftReal (fun t => bandpassFilter spikeAudio 8000 1600 45 65 t *
          hammingWindow 4096 t) 4096 k ^ 2) := (Real.sqrt_sq_eq_abs _).symm
    _ ≤ Real.sqrt (fftReal (fun t => bandpassFilter spikeAudio 8000 1600 45 65 t *
          hammingWindow 4096 t) 4096 k ^ 2 +
        fftImag (fun t => bandpassFilter spikeAudio 8000 1600 45 65 t *
          hammingWindow 4096 t) 4096 k ^ 2) :=
        Real.sqrt_le_sqrt (le_add_of_nonneg_right (sq_nonneg _))

/-- `normalize` returns a single-entry vector unchanged (its range is 0). -/
theorem normalize_singleton (x : ℝ) : normalize [x] = [x] := by
  simp only [normalize, List.foldl_nil]
  rw [if_pos (sub_self x)]

/-- On the spike input the short-time transform produces exactly one
frame, and `normalize` hands its (large) magnitude through unchanged,
whatever target frequency the detection stage chose. -/
theorem extractVector_spike (targetFreq : ℚ) :
    ∃ m, extractFingerprintVector (bandpassFilter spikeAudio 8000 1600 45 65)
        8000 {} 1600 targetFreq = [m] ∧ 1 < m := by
  unfold extractFingerprintVector
  dsimp only
  have hnum : (⌊(((8000 : ℕ) : ℚ) - ((4096 : ℕ) : ℚ)) / ((2048 : ℕ) : ℚ)⌋ : ℤ) = 1 := by
    rw [Int.floor_eq_iff]
    constructor <;> norm_num
  rw [hnum]
  rw [show ((1 : ℤ).toNat) = 1 from rfl]
  rw [show List.range 1 = [0] from rfl]
  simp only [List.map_cons, List.map_nil, zero_mul, zero_add]
  refine ⟨fftMagnitude
      (fun t => bandpassFilter spikeAudio 8000 1600 45 65 t * hammingWindow 4096 t)
      4096 _,
    normalize_singleton _, spike_fftMagnitude_gt_one _⟩

/-- **C5 (code bug).** The failing input: 8000 samples at sampleRate 1600
(exactly the 5-second minimum) holding a spike of amplitude 100 at sample
0.  `extract` accepts it, the analysis yields a single STFT frame, so the
raw vector is a single magnitude `m > 1`; `normalize` sees `max = min`
and returns the vector unchanged, so the returned fingerprint vector has
an entry greater than 1 — not min-max normalised into `[0, 1]`. -/
theorem extract_spike_vector_exceeds_one :
    ∃ fp, extract {} (fun _ => "h") "now" spikeAudio 8000 1600 = some fp ∧
      ∃ x ∈ fp.vector, 1 < x := by
  obtain ⟨m, hvec, hm⟩ := extractVector_spike
    (detectMainsFrequency (bandpassFilter spikeAudio 8000 1600 45 65) 8000 1600)
  refine ⟨⟨extractFingerprintVector (bandpassFilter spikeAudio 8000 1600 45 65) 8000 {}
        1600 (detectMainsFrequency (bandpassFilter spikeAudio 8000 1600 45 65) 8000 1600),
      "h",
      detectMainsFrequency (bandpassFilter spikeAudio 8000 1600 45 65) 8000 1600,
      assessExtractionQuality (extractFingerprintVector
        (bandpassFilter spikeAudio 8000 1600 45 65) 8000 {} 1600
        (detectMainsFrequency (bandpassFilter spikeAudio 8000 1600 45 65) 8000 1600)),
      ((8000 : ℕ) : ℚ) / 1600, 1600, "now"⟩, ?_, ?_⟩
  · unfold extract
    rw [if_neg (by norm_num)]
  · dsimp only
    rw [hvec]
    exact ⟨m, List.mem_singleton_self m, hm⟩

end QuantumSync
